/-
Verification of the Buckeye corpus reader's timeline-reconciliation core:
PhoneTable, WordAligner, LogTable, Track queries and the corpus iterator.

The repository snapshot contains only the Quickstart document; the library
module itself (`buckeye.py`) is absent, so every operation below is modelled
from the specification's component descriptions, with the Quickstart's
recorded outputs used as concrete data.

Timestamps are modelled in integer microseconds: every timestamp in the
corpus annotations carries at most six decimal places of seconds, so the
scaling is exact and order/arithmetic on times is preserved.
-/
import Mathlib

/-- A phonetic segment: label plus its time span (microseconds). -/
structure Phone where
  seg : String
  beg : Int
  end_ : Int
deriving DecidableEq

/-- Derived duration of a phone. -/
def Phone.dur (p : Phone) : Int := p.end_ - p.beg

/-- A voice-quality / overlap log event: label plus its time span. -/
structure LogEntry where
  entry : String
  beg : Int
  end_ : Int
deriving DecidableEq

/-- Derived duration of a log entry. -/
def LogEntry.dur (l : LogEntry) : Int := l.end_ - l.beg

/-- Modelled from the spec: PhoneTable construction (the implementation
module is not in the snapshot). From flat `(label, end_time)` records,
entity `i`'s begin time is entity `i-1`'s end time (`prev` for the first). -/
def buildPhones (prev : Int) : List (String × Int) → List Phone
  | [] => []
  | (l, e) :: rest => ⟨l, prev, e⟩ :: buildPhones e rest

/-- The phone timeline of a track starts at time 0. -/
def phoneTable (records : List (String × Int)) : List Phone :=
  buildPhones 0 records

/-- Modelled from the spec: LogTable construction, analogous to PhoneTable. -/
def buildLogs (prev : Int) : List (String × Int) → List LogEntry
  | [] => []
  | (l, e) :: rest => ⟨l, prev, e⟩ :: buildLogs e rest

/-- The log timeline of a track starts at time 0. -/
def logTable (records : List (String × Int)) : List LogEntry :=
  buildLogs 0 records

/-- Modelled from the spec: `get_logs(start, end)` returns, in temporal
order, every log entry whose span intersects `[start, end)` — the half-open
overlap test `entry.begin < end AND entry.end > start`; an empty result is
legal, not an error. -/
def LogTable.get_logs : List LogEntry → Int → Int → List LogEntry
  | [], _, _ => []
  | l :: rest, s, e =>
    if l.beg < e ∧ l.end_ > s then l :: LogTable.get_logs rest s e
    else LogTable.get_logs rest s e

/-- An orthographic word with its resolved phone span. -/
structure Word where
  orthography : String
  beg : Int
  end_ : Int
  phonemic : List String
  phonetic : List String
  pos : String
  phones : List Phone
deriving DecidableEq

/-- Derived duration of a word. -/
def Word.dur (w : Word) : Int := w.end_ - w.beg

/-- Modelled from the spec: a Word is misaligned when its duration is
negative or the labels of its matched phones differ from the close
transcription recorded in the orthographic tier. -/
def Word.misaligned (w : Word) : Bool :=
  decide (w.dur < 0) || decide (w.phones.map Phone.seg ≠ w.phonetic)

/-- A non-lexical tier entry (silence, noise, interviewer turn, ...). -/
structure Pause where
  entry : String
  beg : Int
  end_ : Int
  phones : List Phone
deriving DecidableEq

/-- Derived duration of a pause. -/
def Pause.dur (p : Pause) : Int := p.end_ - p.beg

/-- Modelled from the spec: a Pause is misaligned exactly when its duration
is negative. -/
def Pause.misaligned (p : Pause) : Bool :=
  decide (p.dur < 0)

/-- The tagged-variant Word/Pause timeline element. -/
inductive Entry where
  | word : Word → Entry
  | pause : Pause → Entry
deriving DecidableEq

/-- Begin time of a timeline entry. -/
def Entry.beg : Entry → Int
  | .word w => w.beg
  | .pause p => p.beg

/-- End time of a timeline entry. -/
def Entry.fin : Entry → Int
  | .word w => w.end_
  | .pause p => p.end_

/-- Matched phones of a timeline entry. -/
def Entry.phones : Entry → List Phone
  | .word w => w.phones
  | .pause p => p.phones

/-- Misalignment flag of a timeline entry. -/
def Entry.misaligned : Entry → Bool
  | .word w => w.misaligned
  | .pause p => p.misaligned

/-- One flat orthographic-tier record: token, end time, canonical and close
transcriptions, part-of-speech tag. -/
structure WordRec where
  orthography : String
  end_ : Int
  phonemic : List String
  phonetic : List String
  pos : String
deriving DecidableEq

/-- Modelled from the spec: a record is a Pause when its orthographic field
matches the pause-token grammar (bracketed/braced non-lexical markers). -/
def isPauseToken (s : String) : Bool :=
  match s.data with
  | c :: _ => c = '<' || c = '\x7b'
  | [] => false

/-- Modelled from the spec: the Word/Pause entity built for one
orthographic record — a Pause when the token matches the pause grammar, a
Word otherwise — spanning `[b, r.end_)` with the matched phones `taken`. -/
def mkEntry (r : WordRec) (b : Int) (taken : List Phone) : Entry :=
  if isPauseToken r.orthography then
    Entry.pause ⟨r.orthography, b, r.end_, taken⟩
  else
    Entry.word ⟨r.orthography, b, r.end_, r.phonemic, r.phonetic, r.pos, taken⟩

/-- Modelled from the spec: the WordAligner's forward sweep. Each record's
begin is the previous record's end (`prev`, 0.0 for the first); the phone
cursor only advances: the record takes every remaining phone that begins
strictly before the record's end, so a phone beginning exactly at the
record's end is left for the next entry (half-open tie-break). -/
def alignWords (prev : Int) (phones : List Phone) : List WordRec → List Entry
  | [] => []
  | r :: rs =>
    mkEntry r prev (phones.takeWhile fun p => decide (p.beg < r.end_))
    :: alignWords r.end_ (phones.dropWhile fun p => decide (p.beg < r.end_)) rs

/-- Error raised by clip extraction. -/
inductive ClipError where
  | audioNotLoaded
  | rangeError
deriving DecidableEq

/-- Modelled from the spec: the loaded audio buffer — sample rate plus the
in-memory samples. -/
structure Audio where
  sampleRate : Nat
  samples : List Int
deriving DecidableEq

/-- Recorded duration of the audio, in microseconds. -/
def Audio.duration (a : Audio) : Int :=
  (a.samples.length * 1000000 : Int) / a.sampleRate

/-- Sample index corresponding to a time (microseconds). -/
def Audio.frameAt (a : Audio) (t : Int) : Nat :=
  (t * a.sampleRate / 1000000).toNat

/-- One track: Word/Pause timeline, phone timeline, log timeline, plain
turns, optional audio. -/
structure Track where
  name : String
  words : List Entry
  phones : List Phone
  log : List LogEntry
  txt : List String
  wav : Option Audio
deriving DecidableEq

/-- `get_logs` on a track delegates to its LogTable. -/
def Track.get_logs (t : Track) (s e : Int) : List LogEntry :=
  LogTable.get_logs t.log s e

/-- Modelled from the spec: clip extraction (`clip_audio` / `clip_wav`).
Fails with `AudioNotLoadedError` if the track was constructed without
audio, with `RangeError` if `start >= end` or the range exceeds the
recorded duration; otherwise yields the samples for `[start, end)`. The
operation is a pure function of the track: a failing call leaves the track
value untouched and usable. -/
def Track.clip_wav (t : Track) (s e : Int) : Except ClipError (List Int) :=
  match t.wav with
  | none => .error .audioNotLoaded
  | some a =>
    if s ≥ e ∨ e > a.duration then .error .rangeError
    else .ok ((a.samples.drop (a.frameAt s)).take (a.frameAt e - a.frameAt s))

/-- A speaker, identified by its 3-character code-name. -/
structure Speaker where
  name : String
deriving DecidableEq

/-- Code-name order on speakers. -/
def speakerLE (a b : Speaker) : Prop := a.name ≤ b.name

instance : DecidableRel speakerLE :=
  fun a b => inferInstanceAs (Decidable (a.name ≤ b.name))

instance : IsTotal Speaker speakerLE :=
  ⟨fun a b => le_total a.name b.name⟩

instance : IsTrans Speaker speakerLE :=
  ⟨fun _ _ _ h h' => le_trans h h'⟩

/-- Modelled from the spec: the corpus iterator yields the speakers
discovered in a directory sorted by ascending code-name. The produced
sequence is modelled; laziness is operational. -/
def corpus (discovered : List Speaker) : List Speaker :=
  discovered.insertionSort speakerLE

/-- The first six orthographic-tier records of track `s0101a`, as recorded
in the Quickstart document (times in microseconds). -/
def s0101aWordRecs : List WordRec :=
  [⟨"\x7bB_TRANS\x7d", 102385, [], [], "null"⟩,
   ⟨"<SIL>", 4275744, [], [], "null"⟩,
   ⟨"<NOISE>", 8513518, [], [], "null"⟩,
   ⟨"<IVER>", 32216575, [], [], "null"⟩,
   ⟨"okay", 32622045, ["ow", "k", "ey"], ["k", "ay"], "NN"⟩,
   ⟨"<IVER>", 37129002, [], [], "null"⟩]

/-- The matching phonetic-tier records of track `s0101a`. -/
def s0101aPhoneRecs : List (String × Int) :=
  [("\x7bB_TRANS\x7d", 102385), ("SIL", 4275744), ("NOISE", 8513763),
   ("IVER", 32216575), ("k", 32376593), ("ay", 32622045),
   ("IVER", 37129002)]

/-- The phone timeline of the `s0101a` excerpt. -/
def s0101aPhones : List Phone := phoneTable s0101aPhoneRecs

/-- The reconciled Word/Pause timeline of the `s0101a` excerpt. -/
def s0101aEntries : List Entry := alignWords 0 s0101aPhones s0101aWordRecs

/-- The log-tier records of track `s0101a`, as recorded in the Quickstart
document. -/
def s0101aLogRecs : List (String × Int) :=
  [("<VOICE=modal>", 61142603), ("<VOICE=creaky>", 61397647),
   ("<VOICE=modal>", 176705681), ("<VOICE=creaky>", 177442715),
   ("<VOICE=modal>", 208458474), ("<VOICE=creaky>", 208998197),
   ("<IVER_overlap-start>", 218326046), ("<IVER_overlap-end>", 218619639),
   ("<IVER_overlap-start>", 281412600), ("<IVER_overlap-end>", 282015381),
   ("<VOICE=modal>", 283014140), ("<VOICE=creaky>", 283342991),
   ("<IVER_overlap-start>", 286369100), ("<IVER_overlap-end>", 286587431),
   ("<IVER_overlap-start>", 358243781), ("<IVER_overlap-end>", 358766553),
   ("<VOICE=modal>", 570891209), ("<VOICE=creaky>", 570988848),
   ("<IVER_overlap-start>", 595595736), ("<IVER_overlap-end>", 596178854)]

/-- The log timeline of track `s0101a`. -/
def s0101aLog : List LogEntry := logTable s0101aLogRecs

/-- The `s0101a` excerpt assembled as a Track (no audio loaded). -/
def s0101aTrack : Track :=
  ⟨"s0101a", s0101aEntries, s0101aPhones, s0101aLog, ["okay <IVER>"], none⟩


/-- The literal per-entry reading of the spec's invariant, for comparison
with the aligner's output: the phones whose whole span falls inside
`[b, e)`. -/
def phonesSpanWithin (b e : Int) (phones : List Phone) : List Phone :=
  phones.filter fun p => decide (b ≤ p.beg) && decide (p.end_ ≤ e)

/-- End time of the last orthographic record (0 for an empty tier). -/
def finalEnd : List WordRec → Int
  | [] => 0
  | [r] => r.end_
  | _ :: r' :: rs => finalEnd (r' :: rs)

/-- On a begin-sorted phone list the sweep's take step is a filter. -/
theorem takeWhile_lt_eq_filter (e : Int) (l : List Phone)
    (h : l.Pairwise fun p q => p.beg ≤ q.beg) :
    (l.takeWhile fun p => decide (p.beg < e)) = l.filter fun p => decide (p.beg < e) := by
  induction l with
  | nil => rfl
  | cons p tl ih =>
    rcases List.pairwise_cons.mp h with ⟨hp, htl⟩
    by_cases hc : p.beg < e
    · simp [List.takeWhile_cons, List.filter_cons, hc, ih htl]
    · have hnil : (tl.filter fun q => decide (q.beg < e)) = [] :=
        List.filter_eq_nil_iff.mpr fun q hq => by
          simp only [decide_eq_true_eq]
          exact fun hlt => hc (lt_of_le_of_lt (hp q hq) hlt)
      simp [List.takeWhile_cons, List.filter_cons, hc, hnil]

/-- Every phone left by the sweep's drop step begins at or after the cut. -/
theorem mem_dropWhile_lt_ge (e : Int) (l : List Phone)
    (h : l.Pairwise fun p q => p.beg ≤ q.beg) :
    ∀ p ∈ l.dropWhile fun p => decide (p.beg < e), e ≤ p.beg := by
  induction l with
  | nil => simp
  | cons q tl ih =>
    rcases List.pairwise_cons.mp h with ⟨hq, htl⟩
    by_cases hc : q.beg < e
    · simpa [List.dropWhile_cons, hc] using ih htl
    · intro p hp
      have heq : ((q :: tl).dropWhile fun p => decide (p.beg < e)) = q :: tl := by
        simp [List.dropWhile_cons, hc]
      rw [heq] at hp
      push_neg at hc
      rcases List.mem_cons.mp hp with rfl | hp'
      · exact hc
      · exact le_trans hc (hq p hp')

/-- The entity built for a record carries exactly the phones handed to it. -/
theorem mkEntry_phones (r : WordRec) (b : Int) (tk : List Phone) :
    (mkEntry r b tk).phones = tk := by
  cases hc : isPauseToken r.orthography <;> simp [mkEntry, hc, Entry.phones]

/-- The entity built for a record begins at the handed-down begin time. -/
theorem mkEntry_beg (r : WordRec) (b : Int) (tk : List Phone) :
    (mkEntry r b tk).beg = b := by
  cases hc : isPauseToken r.orthography <;> simp [mkEntry, hc, Entry.beg]

/-- The entity built for a record ends at the record's end time. -/
theorem mkEntry_fin (r : WordRec) (b : Int) (tk : List Phone) :
    (mkEntry r b tk).fin = r.end_ := by
  cases hc : isPauseToken r.orthography <;> simp [mkEntry, hc, Entry.fin]

/-- One sweep step. -/
theorem alignWords_cons (prev : Int) (phones : List Phone) (r : WordRec) (rs : List WordRec) :
    alignWords prev phones (r :: rs) =
      mkEntry r prev (phones.takeWhile fun p => decide (p.beg < r.end_))
      :: alignWords r.end_ (phones.dropWhile fun p => decide (p.beg < r.end_)) rs := rfl

/-- The aligner emits one entry per orthographic record. -/
theorem alignWords_length (prev : Int) (phones : List Phone) (rs : List WordRec) :
    (alignWords prev phones rs).length = rs.length := by
  induction rs generalizing prev phones with
  | nil => rfl
  | cons r rs ih => rw [alignWords_cons, List.length_cons, ih, List.length_cons]

/-- Every phone matched to an entry begins strictly before the entry's
end time. -/
theorem alignWords_phone_lt_fin (prev : Int) (phones : List Phone) (rs : List WordRec) :
    ∀ en ∈ alignWords prev phones rs, ∀ p ∈ en.phones, p.beg < en.fin := by
  induction rs generalizing prev phones with
  | nil => simp [alignWords]
  | cons r rs ih =>
    intro en hen
    rw [alignWords_cons] at hen
    rcases List.mem_cons.mp hen with rfl | hen
    · intro p hp
      rw [mkEntry_phones] at hp
      rw [mkEntry_fin]
      simpa using List.mem_takeWhile_imp hp
    · exact ih r.end_ _ en hen

/-- Entries produced by the sweep begin no earlier than the sweep origin. -/
theorem alignWords_beg_ge (prev : Int) (phones : List Phone) (rs : List WordRec)
    (hends : rs.Pairwise fun r r' => r.end_ ≤ r'.end_)
    (hfirst : ∀ r ∈ rs, prev ≤ r.end_) :
    ∀ en ∈ alignWords prev phones rs, prev ≤ en.beg := by
  induction rs generalizing prev phones with
  | nil => simp [alignWords]
  | cons r rs ih =>
    intro en hen
    rcases List.pairwise_cons.mp hends with ⟨hr, hrs⟩
    rw [alignWords_cons] at hen
    rcases List.mem_cons.mp hen with rfl | hen
    · rw [mkEntry_beg]
    · have h1 : prev ≤ r.end_ := hfirst r (by simp)
      exact le_trans h1 (ih r.end_ _ hrs hr en hen)

/-- Concatenating the per-entry phone lists restores the full timeline,
provided every phone begins before the final record's end time. -/
theorem alignWords_flatten (prev : Int) (phones : List Phone) (rs : List WordRec)
    (hne : rs ≠ [])
    (hall : ∀ p ∈ phones, p.beg < finalEnd rs) :
    ((alignWords prev phones rs).map Entry.phones).flatten = phones := by
  induction rs generalizing prev phones with
  | nil => exact absurd rfl hne
  | cons r rs ih =>
    cases rs with
    | nil =>
      have hdrop : (phones.dropWhile fun p => decide (p.beg < r.end_)) = [] :=
        List.dropWhile_eq_nil_iff.mpr fun p hp => by
          simpa [finalEnd] using hall p hp
      have htake : (phones.takeWhile fun p => decide (p.beg < r.end_)) = phones := by
        conv_rhs =>
          rw [← List.takeWhile_append_dropWhile (fun p => decide (p.beg < r.end_)) phones]
        rw [hdrop, List.append_nil]
      rw [alignWords_cons, List.map_cons, List.flatten_cons, mkEntry_phones, htake, hdrop]
      simp [alignWords]
    | cons r' rs' =>
      have hall' : ∀ p ∈ phones.dropWhile fun p => decide (p.beg < r.end_),
          p.beg < finalEnd (r' :: rs') := by
        intro p hp
        have hm : p ∈ phones := (List.dropWhile_sublist _).subset hp
        simpa [finalEnd] using hall p hm
      have ihh := ih r.end_ _ (List.cons_ne_nil r' rs') hall'
      rw [alignWords_cons, List.map_cons, List.flatten_cons, mkEntry_phones, ihh,
        List.takeWhile_append_dropWhile]

/-- On a begin-sorted timeline each entry's matched phones are exactly the
phones whose begin time falls in the entry's half-open span. -/
theorem alignWords_phones_eq_filter (prev : Int) (phones : List Phone) (rs : List WordRec)
    (hsort : phones.Pairwise fun p q => p.beg ≤ q.beg)
    (hlo : ∀ p ∈ phones, prev ≤ p.beg)
    (hends : rs.Pairwise fun r r' => r.end_ ≤ r'.end_)
    (hprev : ∀ r ∈ rs, prev ≤ r.end_) :
    ∀ en ∈ alignWords prev phones rs,
      en.phones = phones.filter fun p => decide (en.beg ≤ p.beg) && decide (p.beg < en.fin) := by
  induction rs generalizing prev phones with
  | nil => simp [alignWords]
  | cons r rs ih =>
    intro en hen
    rcases List.pairwise_cons.mp hends with ⟨hr, hrs⟩
    rw [alignWords_cons] at hen
    rcases List.mem_cons.mp hen with rfl | hen
    · rw [mkEntry_phones, mkEntry_beg, mkEntry_fin,
        takeWhile_lt_eq_filter r.end_ phones hsort]
      exact List.filter_congr fun p hp => by simp [hlo p hp]
    · have hsort' := hsort.sublist (List.dropWhile_sublist fun p => decide (p.beg < r.end_))
      have hlo' : ∀ p ∈ phones.dropWhile fun p => decide (p.beg < r.end_), r.end_ ≤ p.beg :=
        mem_dropWhile_lt_ge r.end_ phones hsort
      have hben := ih r.end_ _ hsort' hlo' hrs hr en hen
      have hbeg : r.end_ ≤ en.beg :=
        alignWords_beg_ge r.end_ _ rs hrs hr en hen
      rw [hben]
      conv_rhs =>
        rw [← List.takeWhile_append_dropWhile (fun p => decide (p.beg < r.end_)) phones]
      rw [List.filter_append]
      have hnil : ((phones.takeWhile fun p => decide (p.beg < r.end_)).filter
          fun p => decide (en.beg ≤ p.beg) && decide (p.beg < en.fin)) = [] := by
        refine List.filter_eq_nil_iff.mpr fun p hp => ?_
        have hlt : p.beg < r.end_ := by simpa using List.mem_takeWhile_imp hp
        simp only [Bool.and_eq_true, decide_eq_true_eq, not_and]
        intro hb
        omega
      rw [hnil, List.nil_append]

/-- The phone table is one phone per record. -/
theorem buildPhones_length (prev : Int) (rs : List (String × Int)) :
    (buildPhones prev rs).length = rs.length := by
  induction rs generalizing prev with
  | nil => rfl
  | cons r rest ih =>
    obtain ⟨l, e⟩ := r
    simp [buildPhones, ih]

/-- The phone table keeps each record's label. -/
theorem buildPhones_map_seg (prev : Int) (rs : List (String × Int)) :
    (buildPhones prev rs).map Phone.seg = rs.map Prod.fst := by
  induction rs generalizing prev with
  | nil => rfl
  | cons r rest ih =>
    obtain ⟨l, e⟩ := r
    simp [buildPhones, ih]

/-- The phone table keeps each record's end time. -/
theorem buildPhones_map_end (prev : Int) (rs : List (String × Int)) :
    (buildPhones prev rs).map Phone.end_ = rs.map Prod.snd := by
  induction rs generalizing prev with
  | nil => rfl
  | cons r rest ih =>
    obtain ⟨l, e⟩ := r
    simp [buildPhones, ih]

/-- The first built phone begins at the seed time. -/
theorem buildPhones_head_beg (prev : Int) (rs : List (String × Int)) :
    ∀ p ∈ (buildPhones prev rs).head?, p.beg = prev := by
  cases rs with
  | nil => simp [buildPhones]
  | cons r rest =>
    obtain ⟨l, e⟩ := r
    simp [buildPhones]

/-- Adjacent built phones share a boundary: each end is the next begin. -/
theorem buildPhones_chain (prev : Int) (rs : List (String × Int)) :
    (buildPhones prev rs).Chain' fun p q => p.end_ = q.beg := by
  induction rs generalizing prev with
  | nil => simp [buildPhones]
  | cons r rest ih =>
    obtain ⟨l, e⟩ := r
    refine List.chain'_cons'.mpr ⟨?_, ih e⟩
    intro q hq
    have hb := buildPhones_head_beg e rest q hq
    simp [hb]

/-- `get_logs` is the half-open overlap filter over the log timeline. -/
theorem get_logs_filter (logs : List LogEntry) (s e : Int) :
    LogTable.get_logs logs s e = logs.filter fun l => decide (l.beg < e ∧ l.end_ > s) := by
  induction logs with
  | nil => rfl
  | cons l rest ih =>
    by_cases hc : l.beg < e ∧ l.end_ > s <;>
      simp [LogTable.get_logs, List.filter_cons, hc, ih]

/-- Membership in a `get_logs` answer: the original entry, overlapping. -/
theorem get_logs_mem_iff (logs : List LogEntry) (s e : Int) (l : LogEntry) :
    l ∈ LogTable.get_logs logs s e ↔ l ∈ logs ∧ l.beg < e ∧ l.end_ > s := by
  rw [get_logs_filter]
  simp [List.mem_filter]

/-- Demo audio buffer: 16 kHz, 32 zero samples, so 2000 microseconds. -/
def demoAudio : Audio := ⟨16000, List.replicate 32 0⟩

/-- Demo track carrying audio. -/
def demoWavTrack : Track := ⟨"demo", [], [], [], [], some demoAudio⟩

/-- Demo track constructed without audio. -/
def demoMuteTrack : Track := ⟨"demo", [], [], [], [], none⟩

/-- C1: the orthographic record ("okay", end 32.622045) following a prior
end of 32.216575, matched against the phone cursor positioned at
('k', ..32.376593) ('ay', ..32.622045), yields the Word with begin
32.216575, end 32.622045, those two phones in order, and
misaligned = False given close transcription [k, ay]; the same Word is
entry 4 of the reconciled s0101a timeline. -/
theorem wordAligner_okay_scenario :
    alignWords 32216575
        [⟨"k", 32216575, 32376593⟩, ⟨"ay", 32376593, 32622045⟩]
        [⟨"okay", 32622045, ["ow", "k", "ey"], ["k", "ay"], "NN"⟩] =
      [.word ⟨"okay", 32216575, 32622045, ["ow", "k", "ey"], ["k", "ay"], "NN",
        [⟨"k", 32216575, 32376593⟩, ⟨"ay", 32376593, 32622045⟩]⟩] ∧
    s0101aEntries[4]? =
      some (.word ⟨"okay", 32216575, 32622045, ["ow", "k", "ey"], ["k", "ay"], "NN",
        [⟨"k", 32216575, 32376593⟩, ⟨"ay", 32376593, 32622045⟩]⟩) ∧
    Word.misaligned ⟨"okay", 32216575, 32622045, ["ow", "k", "ey"], ["k", "ay"], "NN",
        [⟨"k", 32216575, 32376593⟩, ⟨"ay", 32376593, 32622045⟩]⟩ = false := by
  refine ⟨by decide, by decide, by decide⟩

/-- C2 counterexample: in track s0101a the NOISE pause spans
[4.275744, 8.513518) but its matched phone list is the NOISE phone ending
at 8.513763, while the phones whose whole span falls inside the pause's
interval are none at all — so an entry's `phones` is not the sub-sequence
of the timeline whose spans fall in `[begin, end)`. -/
theorem entry_phones_not_span_filter :
    s0101aEntries[2]? =
      some (.pause ⟨"<NOISE>", 4275744, 8513518, [⟨"NOISE", 4275744, 8513763⟩]⟩) ∧
    phonesSpanWithin 4275744 8513518 s0101aPhones = [] ∧
    ¬ (∀ en ∈ s0101aEntries, en.phones = phonesSpanWithin en.beg en.fin s0101aPhones) := by
  refine ⟨by decide, by decide, by decide⟩

/-- C2 (amended): on begin-sorted tiers each entry's `phones` is exactly
the sub-sequence of the phone timeline whose begin time falls in
`[begin, end)`, in temporal order, and concatenating the phones lists of
all entries yields exactly the full phone timeline. -/
theorem alignWords_begin_filter_roundtrip (prev : Int) (phones : List Phone)
    (rs : List WordRec)
    (hsort : phones.Pairwise fun p q => p.beg ≤ q.beg)
    (hlo : ∀ p ∈ phones, prev ≤ p.beg)
    (hends : rs.Pairwise fun r r' => r.end_ ≤ r'.end_)
    (hprev : ∀ r ∈ rs, prev ≤ r.end_)
    (hne : rs ≠ [])
    (hall : ∀ p ∈ phones, p.beg < finalEnd rs) :
    (∀ en ∈ alignWords prev phones rs,
      en.phones = phones.filter fun p => decide (en.beg ≤ p.beg) && decide (p.beg < en.fin)) ∧
    ((alignWords prev phones rs).map Entry.phones).flatten = phones :=
  ⟨alignWords_phones_eq_filter prev phones rs hsort hlo hends hprev,
   alignWords_flatten prev phones rs hne hall⟩

/-- C2 witness: the amended statement holds on the s0101a excerpt. -/
theorem alignWords_begin_filter_roundtrip_witness :
    (∀ en ∈ alignWords 0 s0101aPhones s0101aWordRecs,
      en.phones = s0101aPhones.filter fun p =>
        decide (en.beg ≤ p.beg) && decide (p.beg < en.fin)) ∧
    ((alignWords 0 s0101aPhones s0101aWordRecs).map Entry.phones).flatten = s0101aPhones :=
  alignWords_begin_filter_roundtrip 0 s0101aPhones s0101aWordRecs
    (by decide) (by decide) (by decide) (by decide) (by decide) (by decide)

/-- C3: `get_logs(start, end)` is exactly the half-open overlap filter
`entry.begin < end AND entry.end > start` of the log timeline, kept in
temporal order; on the s0101a log it answers the 60s–62s query with the
first three entries, and an out-of-span query returns the empty list
rather than an error. -/
theorem get_logs_overlap_spec :
    (∀ (logs : List LogEntry) (s e : Int),
      LogTable.get_logs logs s e = logs.filter fun l => decide (l.beg < e ∧ l.end_ > s)) ∧
    s0101aTrack.get_logs 60000000 62000000 =
      [⟨"<VOICE=modal>", 0, 61142603⟩,
       ⟨"<VOICE=creaky>", 61142603, 61397647⟩,
       ⟨"<VOICE=modal>", 61397647, 176705681⟩] ∧
    LogTable.get_logs s0101aLog 700000000 800000000 = [] :=
  ⟨get_logs_filter, by decide, by decide⟩

/-- C4: `misaligned` is true whenever the end time precedes the begin time
(negative duration), and for Words also whenever the matched phone labels
differ from the stored close transcription; the flag is pure data — the
functions are total (no error path) and the aligner emits one entry per
record, so no entity is removed from the timeline. -/
theorem misaligned_flag_spec :
    (∀ w : Word, w.end_ < w.beg → w.misaligned = true) ∧
    (∀ w : Word, w.phones.map Phone.seg ≠ w.phonetic → w.misaligned = true) ∧
    (∀ p : Pause, p.end_ < p.beg → p.misaligned = true) ∧
    (∀ (prev : Int) (phones : List Phone) (rs : List WordRec),
      (alignWords prev phones rs).length = rs.length) := by
  refine ⟨?_, ?_, ?_, alignWords_length⟩
  · intro w h
    simp only [Word.misaligned, Word.dur, Bool.or_eq_true, decide_eq_true_eq]
    left
    omega
  · intro w h
    simp only [Word.misaligned, Word.dur, Bool.or_eq_true, decide_eq_true_eq]
    right
    exact h
  · intro p h
    simp only [Pause.misaligned, Pause.dur, decide_eq_true_eq]
    omega

/-- C4 witness: a backwards word, a transcription mismatch, a backwards
pause, and length preservation on the s0101a excerpt. -/
theorem misaligned_flag_spec_witness :
    Word.misaligned ⟨"okay", 32622045, 32216575, [], [], "NN", []⟩ = true ∧
    Word.misaligned ⟨"okay", 32216575, 32622045, ["ow", "k", "ey"], ["ow"], "NN",
      [⟨"k", 32216575, 32376593⟩]⟩ = true ∧
    Pause.misaligned ⟨"<SIL>", 4275744, 102385, []⟩ = true ∧
    (alignWords 0 s0101aPhones s0101aWordRecs).length = s0101aWordRecs.length :=
  ⟨misaligned_flag_spec.1 _ (by decide),
   misaligned_flag_spec.2.1 _ (by decide),
   misaligned_flag_spec.2.2.1 _ (by decide),
   misaligned_flag_spec.2.2.2 0 s0101aPhones s0101aWordRecs⟩

/-- C5: a phone beginning exactly at an entry's end is never assigned to
that entry (every matched phone begins strictly before the entry's end);
concretely, the phone 'k' beginning at 32.216575 — the exact end of the
IVER pause — is assigned to the following Word "okay", not to the pause. -/
theorem phone_boundary_tiebreak :
    (∀ (prev : Int) (phones : List Phone) (rs : List WordRec),
      ∀ en ∈ alignWords prev phones rs, ∀ p ∈ en.phones, p.beg < en.fin) ∧
    (s0101aEntries.map Entry.fin)[3]? = some 32216575 ∧
    (s0101aEntries.map Entry.phones)[3]? = some [⟨"IVER", 8513763, 32216575⟩] ∧
    (s0101aEntries.map Entry.phones)[4]? =
      some [⟨"k", 32216575, 32376593⟩, ⟨"ay", 32376593, 32622045⟩] :=
  ⟨alignWords_phone_lt_fin, by decide, by decide, by decide⟩

/-- C5 witness: the bound applied to the phone 'ay' inside the Word "okay"
of the s0101a timeline. -/
theorem phone_boundary_tiebreak_witness :
    Phone.beg ⟨"ay", 32376593, 32622045⟩ <
      Entry.fin (.word ⟨"okay", 32216575, 32622045, ["ow", "k", "ey"], ["k", "ay"], "NN",
        [⟨"k", 32216575, 32376593⟩, ⟨"ay", 32376593, 32622045⟩]⟩) :=
  phone_boundary_tiebreak.1 0 s0101aPhones s0101aWordRecs _ (by decide) _ (by decide)

/-- C6: the phone timeline is contiguous — one phone per record keeping
its label and end time, the first phone begins at 0, each phone's end is
the next phone's begin, and when the tier's end times are non-decreasing
so are the phones' (zero-duration records are preserved, not collapsed,
as the length and field equalities show). -/
theorem phoneTable_contiguous (records : List (String × Int)) :
    (phoneTable records).length = records.length ∧
    (phoneTable records).map Phone.seg = records.map Prod.fst ∧
    (phoneTable records).map Phone.end_ = records.map Prod.snd ∧
    (∀ p ∈ (phoneTable records).head?, p.beg = 0) ∧
    ((phoneTable records).Chain' fun p q => p.end_ = q.beg) ∧
    ((records.map Prod.snd).Pairwise (· ≤ ·) →
      ((phoneTable records).map Phone.end_).Pairwise (· ≤ ·)) := by
  refine ⟨buildPhones_length 0 records, buildPhones_map_seg 0 records,
    buildPhones_map_end 0 records, buildPhones_head_beg 0 records,
    buildPhones_chain 0 records, ?_⟩
  intro h
  rw [phoneTable, buildPhones_map_end]
  exact h

/-- C6 witness: contiguity and sorted end times on the s0101a records. -/
theorem phoneTable_contiguous_witness :
    (phoneTable s0101aPhoneRecs).length = s0101aPhoneRecs.length ∧
    ((phoneTable s0101aPhoneRecs).map Phone.end_).Pairwise (· ≤ ·) :=
  ⟨(phoneTable_contiguous s0101aPhoneRecs).1,
   (phoneTable_contiguous s0101aPhoneRecs).2.2.2.2.2 (by decide)⟩

/-- C7: clip extraction yields AudioNotLoadedError exactly when the track
was built without audio, RangeError exactly when `start >= end` or the
range exceeds the recorded duration, and otherwise the samples for
`[start, end)`; it is a pure function of the track, so a failing call
leaves the track value unchanged and usable. -/
theorem clip_wav_spec (t : Track) (s e : Int) :
    (t.clip_wav s e = .error .audioNotLoaded ↔ t.wav = none) ∧
    (∀ a, t.wav = some a →
      (t.clip_wav s e = .error .rangeError ↔ (s ≥ e ∨ e > a.duration))) ∧
    (∀ a, t.wav = some a → s < e → e ≤ a.duration →
      t.clip_wav s e =
        .ok ((a.samples.drop (a.frameAt s)).take (a.frameAt e - a.frameAt s))) := by
  refine ⟨?_, ?_, ?_⟩
  · cases hw : t.wav with
    | none => simp [Track.clip_wav, hw]
    | some a =>
      simp only [Track.clip_wav, hw]
      by_cases hc : s ≥ e ∨ e > a.duration <;> simp [hc]
  · intro a ha
    simp only [Track.clip_wav, ha]
    by_cases hc : s ≥ e ∨ e > a.duration <;> simp [hc]
  · intro a ha h1 h2
    have hc : ¬(s ≥ e ∨ e > a.duration) := by omega
    simp only [Track.clip_wav, ha]
    simp [hc]

/-- C7 witness: the no-audio error, the range error, and a successful clip
on the demo tracks. -/
theorem clip_wav_spec_witness :
    demoMuteTrack.clip_wav 0 1000 = .error .audioNotLoaded ∧
    demoWavTrack.clip_wav 0 5000 = .error .rangeError ∧
    demoWavTrack.clip_wav 0 1000 =
      .ok ((demoAudio.samples.drop (demoAudio.frameAt 0)).take
        (demoAudio.frameAt 1000 - demoAudio.frameAt 0)) :=
  ⟨(clip_wav_spec demoMuteTrack 0 1000).1.mpr rfl,
   ((clip_wav_spec demoWavTrack 0 5000).2.1 demoAudio rfl).mpr (Or.inr (by decide)),
   (clip_wav_spec demoWavTrack 0 1000).2.2 demoAudio rfl (by decide) (by decide)⟩

/-- C8: the corpus iterator yields each discovered speaker exactly once
(the multiset of speakers is preserved) sorted by ascending code-name;
laziness and single-pass consumption are operational traits of the
generator and are represented here by the produced sequence. -/
theorem corpus_sorted_once (discovered : List Speaker) :
    (∀ s, (corpus discovered).count s = discovered.count s) ∧
    (corpus discovered).Pairwise speakerLE := by
  constructor
  · intro s
    exact (List.perm_insertionSort speakerLE discovered).count_eq s
  · exact List.sorted_insertionSort speakerLE discovered

/-- C9: in track s0101a the words tier ends the NOISE pause at 8.513518
while the phone tier places the NOISE/IVER boundary at 8.513763; the
NOISE pause is not misaligned, its span is not exactly covered by its
matched phone, and the straddling NOISE phone is assigned to exactly one
of the two adjacent entries. -/
theorem cross_tier_boundary_mismatch :
    s0101aEntries[2]? =
      some (.pause ⟨"<NOISE>", 4275744, 8513518, [⟨"NOISE", 4275744, 8513763⟩]⟩) ∧
    s0101aEntries[3]? =
      some (.pause ⟨"<IVER>", 8513518, 32216575, [⟨"IVER", 8513763, 32216575⟩]⟩) ∧
    Pause.misaligned ⟨"<NOISE>", 4275744, 8513518, [⟨"NOISE", 4275744, 8513763⟩]⟩ = false ∧
    (s0101aEntries.map Entry.phones).flatten.count ⟨"NOISE", 4275744, 8513763⟩ = 1 := by
  refine ⟨by decide, by decide, by decide, by decide⟩

/-- C10: `get_logs` returns matching entries whole — every returned entry
is literally an entry of the log timeline, never clipped to the query
interval; the 60s–62s query on s0101a returns the entry spanning
61.397647–176.705681 with its original timestamps. -/
theorem get_logs_returns_entries_whole :
    (∀ (logs : List LogEntry) (s e : Int) (l : LogEntry),
      l ∈ LogTable.get_logs logs s e → l ∈ logs) ∧
    (⟨"<VOICE=modal>", 61397647, 176705681⟩ : LogEntry) ∈
      s0101aTrack.get_logs 60000000 62000000 := by
  constructor
  · intro logs s e l hl
    exact ((get_logs_mem_iff logs s e l).mp hl).1
  · decide

/-- C10 witness: the creaky-voice entry returned by the 60s–62s query is
an entry of the s0101a log timeline. -/
theorem get_logs_returns_entries_whole_witness :
    (⟨"<VOICE=creaky>", 61142603, 61397647⟩ : LogEntry) ∈ s0101aLog :=
  get_logs_returns_entries_whole.1 s0101aLog 60000000 62000000 _ (by decide)
